import Mathlib

/-!
Verification of the calmjs.parse rendering core: the rule-driven
tree-walking unparser (Dispatcher + walk in unparsers/walker.py and the
rule types in ruletypes.py), the name mangler scaffolding (mangler.py),
and the VLQ source-map codec (modelled from the specification, checked
against the expectations recorded in tests/test_vlq.py).

Python machine integers are unbounded, so Int/Nat model them directly.
Python exceptions are modelled with Except; mutation of handler closure
state is modelled by explicit state passing.
-/

namespace CalmjsParse

/-! ## VLQ codec

`calmjs/parse/vlq.py` itself is not part of the provided sources; only
its test module is.  The definitions below are modelled from the spec
(section 4.1) and, where the spec's prose conflicts with the concrete
expectations in `tests/test_vlq.py`, from those in-source tests, which
are taken as authoritative for the encoded literals.
-/

/-- The fixed base64 alphabet `A-Za-z0-9+/` used by the VLQ encoding. -/
def B64_CHARS : List Char :=
  "ABCDEFGHIJKLMNOPQRSTUVWXYZabcdefghijklmnopqrstuvwxyz0123456789+/".data

/-- Digit value `i` (0 ≤ i < 64) to its base64 character. -/
def b64Char (i : Nat) : Char := B64_CHARS.getD i '?'

/-- Base64 character back to its digit value; `none` on a character
outside the alphabet (the decode-error case of the spec). -/
def b64Index (c : Char) : Option Nat := B64_CHARS.findIdx? (fun x => x == c)

/-- Modelled from the spec: map a signed value to the unsigned
"signed-VLQ" form whose bit 0 carries the sign (`value*2`, or
`value*-2+1` for negatives). -/
def vlqUnsigned (n : Int) : Nat :=
  if n < 0 then (2 * (-n) + 1).toNat else (2 * n).toNat

/-- Inverse of `vlqUnsigned`: bit 0 is the sign, the rest the magnitude. -/
def vlqSigned (u : Nat) : Int :=
  if u % 2 = 1 then -(Int.ofNat (u / 2)) else Int.ofNat (u / 2)

/-- Modelled from the spec: split an unsigned value into 5-bit digit
groups, least significant first, setting the continuation bit (value 32)
on every group except the last.  `fuel` bounds the recursion; any
`fuel ≥ u` computes the full digit list. -/
def vlqDigitsGo : Nat → Nat → List Nat
  | 0, u => [u]
  | fuel + 1, u => if u < 32 then [u] else (u % 32 + 32) :: vlqDigitsGo fuel (u / 32)

/-- The 5-bit digit groups (with continuation bits) of an unsigned value. -/
def vlqDigits (u : Nat) : List Nat := vlqDigitsGo u u

/-- Modelled from the spec: `encode_vlq`, as a character list. -/
def encodeVlqChars (n : Int) : List Char := (vlqDigits (vlqUnsigned n)).map b64Char

/-- Modelled from the spec: `encode_vlq(n)` encodes one signed integer
into base64 VLQ text. -/
def encode_vlq (n : Int) : String := ⟨encodeVlqChars n⟩

/-- Value of a least-significant-first list of 5-bit digit payloads. -/
def digitsVal (ds : List Nat) : Nat := ds.foldr (fun d r => d + 32 * r) 0

/-- Errors raised by the decoding side of the codec. -/
inductive VlqErr where
  | badChar (c : Char)
  | truncated
  | arity
  deriving DecidableEq

/-- Modelled from the spec: decode one signed VLQ from the front of the
text, consuming characters until a group without the continuation bit;
fails on an unrecognized character or truncated input. -/
def decodeVlqOne : List Char → List Nat → Except VlqErr Int
  | [], _ => .error .truncated
  | c :: rest, acc =>
    match b64Index c with
    | none => .error (.badChar c)
    | some d =>
      if d < 32 then .ok (vlqSigned (digitsVal (acc ++ [d])))
      else decodeVlqOne rest (acc ++ [d - 32])

/-- Modelled from the spec: `decode_vlq` decodes the first signed
integer in the text. -/
def decode_vlq (s : String) : Except VlqErr Int := decodeVlqOne s.data []

/-- Modelled from the spec: `encode_vlqs` concatenates the encodings of
a sequence of integers with no separator (each one is self-delimiting
via the continuation bit). -/
def encodeVlqsChars (ns : List Int) : List Char := (ns.map encodeVlqChars).flatten

/-- String form of `encodeVlqsChars`. -/
def encode_vlqs (ns : List Int) : String := ⟨encodeVlqsChars ns⟩

/-- Modelled from the spec: decode a whole run of concatenated VLQs,
returning the integers in their original order. -/
def decodeVlqsGo : List Char → List Nat → Except VlqErr (List Int)
  | [], [] => .ok []
  | [], _ :: _ => .error .truncated
  | c :: rest, acc =>
    match b64Index c with
    | none => .error (.badChar c)
    | some d =>
      if d < 32 then
        match decodeVlqsGo rest [] with
        | .ok vs => .ok (vlqSigned (digitsVal (acc ++ [d])) :: vs)
        | .error e => .error e
      else decodeVlqsGo rest (acc ++ [d - 32])

/-- Modelled from the spec: `decode_vlqs`. -/
def decode_vlqs (s : String) : Except VlqErr (List Int) := decodeVlqsGo s.data []

/-- One mapping segment: (generated_column, source_index, source_line,
source_column).  The in-source tests feed these fields to the VLQ
encoder unchanged, i.e. the tuples already hold the per-field deltas of
the source-map v3 convention. -/
abbrev Seg : Type := Int × Int × Int × Int

/-- Character-list encoding of one mapping segment: its four fields as
concatenated VLQs. -/
def encodeSegChars (g : Seg) : List Char :=
  encodeVlqsChars [g.1, g.2.1, g.2.2.1, g.2.2.2]

/-- One line of the mappings: its segments joined with `,`. -/
def encodeLineChars (line : List Seg) : List Char :=
  [','].intercalate (line.map encodeSegChars)

/-- Modelled from the spec and the in-source tests (`test_vlq.py`):
`encode_mappings(groups)` joins the segments of each line with `,` and
the lines with `;`.  The trailing `;` seen in every test literal is the
separator in front of a final empty line of the input, not an
unconditional per-line terminator, and the tuple fields are encoded
exactly as given (the caller supplies deltas), since those are the only
readings under which the expectations of `test_vlq.py` hold. -/
def encodeMappingsChars (groups : List (List Seg)) : List Char :=
  [';'].intercalate (groups.map encodeLineChars)

/-- String form of `encodeMappingsChars`. -/
def encode_mappings (groups : List (List Seg)) : String := ⟨encodeMappingsChars groups⟩

/-- Decode one segment: its VLQ run must hold exactly four integers
(mismatched segment arity is the format error of the spec). -/
def decodeSegChars (cs : List Char) : Except VlqErr Seg :=
  match decodeVlqsGo cs [] with
  | .ok [a, b, c, d] => .ok (a, b, c, d)
  | .ok _ => .error .arity
  | .error e => .error e

/-- Decode one line: split on `,`, drop empty pieces (an empty line
produces no segments), decode each segment. -/
def decodeLineChars (cs : List Char) : Except VlqErr (List Seg) :=
  ((cs.splitOn ',').filter (fun seg => seg ≠ [])).mapM decodeSegChars

/-- Modelled from the spec: `decode_mappings` splits on `;` then `,`
and decodes each segment's four VLQ fields. -/
def decodeMappingsChars (cs : List Char) : Except VlqErr (List (List Seg)) :=
  (cs.splitOn ';').mapM decodeLineChars

/-- String form of `decodeMappingsChars`. -/
def decode_mappings (s : String) : Except VlqErr (List (List Seg)) :=
  decodeMappingsChars s.data

/-!
The next two definitions follow the words of the specification/claim
for `encode_mappings` (each field stored as a delta computed by the
encoder, generated_column resetting per line, the other three fields
accumulating across the whole mapping, and a trailing `;` terminating
every line including the last).  They exist to be compared with the
test-constrained model above.
-/

/-- Delta-encode the segments of one line as the claim describes:
generated_column relative to the previous segment of the same line
(starting from 0), source fields relative to the previous segment of
the whole mapping.  Returns the encoded segments and the final source
field state. -/
def claimDeltaSegs (gcolPrev : Int) (srcPrev : Int × Int × Int) :
    List Seg → List (List Char) × (Int × Int × Int)
  | [] => ([], srcPrev)
  | (g, s1, s2, s3) :: rest =>
    let enc := encodeVlqsChars
      [g - gcolPrev, s1 - srcPrev.1, s2 - srcPrev.2.1, s3 - srcPrev.2.2]
    let (tail, srcOut) := claimDeltaSegs g (s1, s2, s3) rest
    (enc :: tail, srcOut)

/-- The encoder the claim describes: delta computation per
`claimDeltaSegs`, segments joined with `,`, and every line (including
the last) terminated by a trailing `;`. -/
def claimEncodeGo (srcPrev : Int × Int × Int) : List (List Seg) → List Char
  | [] => []
  | line :: rest =>
    let (segs, srcOut) := claimDeltaSegs 0 srcPrev line
    [','].intercalate segs ++ [';'] ++ claimEncodeGo srcOut rest

/-- `encode_mappings` as the claim words it, for comparison. -/
def encode_mappings_claimed (groups : List (List Seg)) : String :=
  ⟨claimEncodeGo (0, 0, 0) groups⟩

/-! ## Node data model

The AST node contract is external to the walker (asttypes is not among
the sources); per the spec a node is a typed tree element with a
type-name tag, named attributes (scalar, child node, or node sequence,
possibly absent or `None`), and—consumed by `Iter`—an ordered sequence
of children.  One inductive covers nodes and the attribute values.
-/

inductive PyVal where
  | pnone
  | pstr (s : String)
  | pnode (typename : String) (attrs : List (String × PyVal)) (children : List PyVal)
  | plist (xs : List PyVal)

/-- First-match association-list lookup, the dict/`getattr` lookup of
the model. -/
def alookup {κ β : Type} [DecidableEq κ] (k : κ) : List (κ × β) → Option β
  | [] => none
  | (k', v) :: rest => if k = k' then some v else alookup k rest

/-- `getattr(node, name)`: `none` models the `AttributeError` case. -/
def getattr (v : PyVal) (name : String) : Option PyVal :=
  match v with
  | .pnode _ attrs _ => alookup name attrs
  | _ => none

/-- The type-name tag of a node (empty for non-nodes). -/
def typenameOf : PyVal → String
  | .pnode t _ _ => t
  | _ => ""

/-- `isinstance(x, Identifier)` of ruletypes.py, keyed—like the
dispatcher's definition lookup—by the runtime type name. -/
def isIdentifier : PyVal → Bool
  | .pnode t _ _ => t == "Identifier"
  | _ => false

/-- `is_empty(value)` from ruletypes.py line 20: `value in (None, [])`.
Only `None` and an empty list compare equal to those two constants. -/
def isEmptyVal : PyVal → Bool
  | .pnone => true
  | .plist [] => true
  | _ => false

/-- `iter(value)` as used by `JoinAttr`: a list iterates over its
elements and a node over its children; anything else is the `TypeError`
of iterating a non-iterable. -/
def iterVal (v : PyVal) : Option (List PyVal) :=
  match v with
  | .plist xs => some xs
  | .pnode _ _ cs => some cs
  | _ => none

/-! ## Rule types (ruletypes.py) -/

/-- The concrete `Deferred` rule variants the walker consumes.  `Iter`
takes no arguments, `Declare` stores the attribute name, `Resolve`
takes no arguments. -/
inductive DeferredR where
  | iter
  | declare (attr : String)
  | resolve
  deriving DecidableEq

/-- A `Token`'s `attr` argument: either an attribute name or a
`Deferred` instance (ruletypes.py `Attr._getattr`). -/
inductive AttrSpec where
  | name (s : String)
  | deferred (d : DeferredR)
  deriving DecidableEq

/-- The `Layout` marker classes of ruletypes.py. -/
inductive LayoutT where
  | space
  | optionalSpace
  | newline
  | optionalNewline
  | indent
  | dedent
  | pushScope
  | popScope
  deriving DecidableEq

/-- A key of the layout-handler table: a single marker class, or a
tuple of marker classes as looked up by `process_layouts` (the walker
only ever queues single marker classes, so tuples of marker classes
cover every key it can form). -/
inductive LayoutKey where
  | single (t : LayoutT)
  | tupleK (ts : List LayoutT)
  deriving DecidableEq

/-- The marker class of a queued layout rule chunk (the walker only
queues `single` keys; the tuple case never reaches the rule stack). -/
def keyTag : LayoutKey → LayoutT
  | .single t => t
  | .tupleK _ => .space

/-- The rule vocabulary needed by the claims: `Text`, `Attr`,
`JoinAttr` (whose `value` is itself a definition), `Operator`, and the
inert `Layout` markers.  Tokens are the first four. -/
inductive Rule where
  | text (value : String)
  | attr (a : AttrSpec)
  | joinAttr (a : AttrSpec) (value : List Rule)
  | operator (oattr : Option String) (value : String)
  | layout (m : LayoutT)

/-- `isinstance(rule, Token)` for the walk loop. -/
def isToken : Rule → Bool
  | .layout _ => false
  | _ => true

/-- Errors propagating out of a walk. -/
inductive PyErr where
  | keyError (typename : String)
  | attributeError (name : String)
  | typeErrorDeclare (parent : String) (attr : String) (idx : Option Nat)
  | typeErrorResolve
  | typeErrorIter
  | outOfFuel
  deriving DecidableEq

/-! ## Dispatcher and handlers (unparsers/walker.py)

Python handlers receive the dispatcher as their first argument but, of
its surface, may only consult the `indent_str`/`newline_str`
properties; the model passes exactly that configuration surface.
Handler closure state is threaded explicitly as a value of the state
type `σ`.
-/

/-- The read-only configuration surface a handler sees of the
dispatcher. -/
structure DCfg where
  indent_str : String
  newline_str : String
  deriving DecidableEq

/-- An emitted output chunk; the walker only ever reads the `text`
field of its chunks (the deciding tests use a text-only SimpleChunk). -/
structure Chunk where
  text : String
  deriving DecidableEq

/-- Layout handler: `(dispatcher, node, before, after, prev) →` chunks,
plus threaded closure state. -/
def LayoutHandler (σ : Type) : Type :=
  DCfg → PyVal → Option String → Option String → Option String → σ → σ × List Chunk

/-- Token handler: `(token, dispatcher, node, value) →` chunks. -/
def TokenHandler (σ : Type) : Type :=
  Rule → DCfg → PyVal → PyVal → σ → σ × List Chunk

/-- The dispatcher: definition table, the single token handler, the
layout-handler table (keyed by marker class or tuple of classes), the
two deferred handlers the rule types look up (`Declare` and `Resolve`;
an `Iter` entry would never be consulted), and the two layout strings. -/
structure Dispatcher (σ : Type) where
  definitions : List (String × List Rule)
  token_handler : TokenHandler σ
  layout_handlers : List (LayoutKey × LayoutHandler σ)
  declare_handler : Option (DCfg → PyVal → σ → σ)
  resolve_handler : Option (DCfg → PyVal → σ → σ × PyVal)
  indent_str : String
  newline_str : String

/-- The configuration surface of a dispatcher. -/
def Dispatcher.cfg {σ : Type} (d : Dispatcher σ) : DCfg :=
  ⟨d.indent_str, d.newline_str⟩

/-- `dispatcher[node]` (walker.py `__getitem__`): the definition
registered for the node's runtime type name; a missing entry is the
lookup `KeyError` of an incomplete grammar. -/
def Dispatcher.defFor {σ : Type} (d : Dispatcher σ) (node : PyVal) : Except PyErr (List Rule) :=
  match alookup (typenameOf node) d.definitions with
  | some defn => .ok defn
  | none => .error (.keyError (typenameOf node))

/-- `dispatcher(rule)` for a layout key: the registered handler, or
`none` for the `NotImplemented` sentinel. -/
def Dispatcher.layoutFor {σ : Type} (d : Dispatcher σ) (k : LayoutKey) : Option (LayoutHandler σ) :=
  alookup k d.layout_handlers

/-- Modelled from the spec: `rule_handler_noop` from calmjs.parse.layout
(that module is not among the sources); an unregistered layout marker
defaults to a no-op producing no chunks. -/
def rule_handler_noop {σ : Type} : LayoutHandler σ :=
  fun _ _ _ _ _ s => (s, [])

/-- A queued layout marker (ruletypes.py `LayoutRuleChunk`): the rule
key, the handler resolved for it, and the node whose walk queued it. -/
structure LRC (σ : Type) where
  rule : LayoutKey
  handler : LayoutHandler σ
  node : PyVal

/-- One item of the raw `_walk` stream: a real chunk or a queued layout
marker. -/
inductive WItem (σ : Type) where
  | chunk (c : Chunk)
  | lrc (l : LRC σ)

/-! ## Deferred rule evaluation (ruletypes.py `Iter`, `Declare`,
`Resolve`) -/

/-- The `Declare._handle` loop over a fetched list: check each item is
an Identifier (else the `TypeError` naming the attribute path with the
element index) and invoke the registered handler once per item, in
order. -/
def declareItems {σ : Type} (cfg : DCfg) (h : DCfg → PyVal → σ → σ)
    (parent : String) (attr : String) : List PyVal → Nat → σ → Except PyErr σ
  | [], _, s => .ok s
  | v :: vs, i, s =>
    if isIdentifier v then declareItems cfg h parent attr vs (i + 1) (h cfg v s)
    else .error (.typeErrorDeclare parent attr (some i))

/-- `Declare.__call__`: fetch `node.<attr>`; return it unchanged when
empty; otherwise, only when a Declare handler is registered, check and
invoke per item (a list item-by-item with indices, any other value as
the single item); finally return the fetched value. -/
def declareCall {σ : Type} (d : Dispatcher σ) (attr : String) (node : PyVal) (s : σ) :
    Except PyErr (σ × PyVal) :=
  match getattr node attr with
  | none => .error (.attributeError attr)
  | some target =>
    if isEmptyVal target then .ok (s, target)
    else
      match d.declare_handler with
      | none => .ok (s, target)
      | some h =>
        match target with
        | .plist xs =>
          match declareItems d.cfg h (typenameOf node) attr xs 0 s with
          | .ok s1 => .ok (s1, .plist xs)
          | .error e => .error e
        | v =>
          if isIdentifier v then .ok (h d.cfg v s, v)
          else .error (.typeErrorDeclare (typenameOf node) attr none)

/-- `Resolve.__call__`: the node itself must be an Identifier (else
`TypeError`); delegate to the registered handler, or fall back to the
node's own `value` attribute. -/
def resolveCall {σ : Type} (d : Dispatcher σ) (node : PyVal) (s : σ) :
    Except PyErr (σ × PyVal) :=
  if isIdentifier node then
    match d.resolve_handler with
    | some h => .ok (h d.cfg node s)
    | none =>
      match getattr node "value" with
      | some v => .ok (s, v)
      | none => .error (.attributeError "value")
  else .error .typeErrorResolve

/-- `Attr._getattr`: call the attr when it is a `Deferred`, else fetch
the named attribute (a missing attribute is an `AttributeError`). -/
def getAttrSpec {σ : Type} (d : Dispatcher σ) (a : AttrSpec) (node : PyVal) (s : σ) :
    Except PyErr (σ × PyVal) :=
  match a with
  | .name n =>
    match getattr node n with
    | some v => .ok (s, v)
    | none => .error (.attributeError n)
  | .deferred dr =>
    match dr with
    | .iter =>
      match iterVal node with
      | some cs => .ok (s, .plist cs)
      | none => .error .typeErrorIter
    | .declare attr => declareCall d attr node s
    | .resolve => resolveCall d node s

/-! ## The `_walk` stream (walker.py `walk._walk` and the Token
`__call__` implementations)

Python's generators interleave recursion through `rule(_walk, ...)` and
`Token.resolve`; the model makes that mutual recursion one fuel-indexed
function over an explicit call tag, concatenating each call's emitted
items in the original order.  Fuel only bounds the recursion depth:
every claim is evaluated with enough fuel that `outOfFuel` is never
reached. -/

/-- A pending call of the walk recursion: iterate a definition against
a node (`_walk`), invoke one token rule, resolve a derived value
(`Token.resolve`), or continue a `JoinAttr` iteration after its first
element. -/
inductive WCall (σ : Type) where
  | walkList (node : PyVal) (defn : List Rule)
  | token (r : Rule) (node : PyVal)
  | resolveV (r : Rule) (node : PyVal) (value : PyVal)
  | joinRest (r : Rule) (sub : List Rule) (node : PyVal) (xs : List PyVal)

/-- The fuel-indexed walk recursion.  `walkList` is `_walk`: tokens are
invoked and their items forwarded, a non-token rule is wrapped into a
`LayoutRuleChunk` carrying the registered handler (or the no-op when
unregistered).  `token` implements `Text`, `Attr`, `JoinAttr` and
`Operator.__call__`; `resolveV` implements `Token.resolve` (recursive
walk for a Node value via `dispatcher[value]`, the token handler for
any other value); `joinRest` is `JoinAttr`'s tail loop (separator
sub-definition, then the element). -/
def wk {σ : Type} (d : Dispatcher σ) : Nat → WCall σ → σ → Except PyErr (σ × List (WItem σ))
  | 0, _, _ => .error .outOfFuel
  | fuel + 1, call, s =>
    match call with
    | .walkList node defn =>
      match defn with
      | [] => .ok (s, [])
      | r :: rs =>
        match
          (match r with
           | .layout m =>
             match d.layoutFor (.single m) with
             | some h => .ok (s, [.lrc ⟨.single m, h, node⟩])
             | none => .ok (s, [.lrc ⟨.single m, rule_handler_noop, node⟩])
           | _ => wk d fuel (.token r node) s :
           Except PyErr (σ × List (WItem σ))) with
        | .error e => .error e
        | .ok (s1, items1) =>
          match wk d fuel (.walkList node rs) s1 with
          | .error e => .error e
          | .ok (s2, items2) => .ok (s2, items1 ++ items2)
    | .token r node =>
      match r with
      | .text v => wk d fuel (.resolveV r node (.pstr v)) s
      | .attr a =>
        match getAttrSpec d a node s with
        | .error e => .error e
        | .ok (s1, value) =>
          if isEmptyVal value then .ok (s1, [])
          else wk d fuel (.resolveV r node value) s1
      | .operator oattr v =>
        match
          (match oattr with
           | some n =>
             match getattr node n with
             | some w => .ok w
             | none => .error (PyErr.attributeError n)
           | none => .ok (.pstr v) :
           Except PyErr PyVal) with
        | .error e => .error e
        | .ok value =>
          if isEmptyVal value then .ok (s, [])
          else wk d fuel (.resolveV r node value) s
      | .joinAttr a sub =>
        match getAttrSpec d a node s with
        | .error e => .error e
        | .ok (s1, fetched) =>
          match iterVal fetched with
          | none => .error .typeErrorIter
          | some xs =>
            match xs with
            | [] => .ok (s1, [])
            | x0 :: rest =>
              match wk d fuel (.resolveV r node x0) s1 with
              | .error e => .error e
              | .ok (s2, items0) =>
                match wk d fuel (.joinRest r sub node rest) s2 with
                | .error e => .error e
                | .ok (s3, itemsR) => .ok (s3, items0 ++ itemsR)
      | .layout _ => .ok (s, [])
    | .resolveV r node value =>
      match value with
      | .pnode t attrs cs =>
        match d.defFor (.pnode t attrs cs) with
        | .error e => .error e
        | .ok defn => wk d fuel (.walkList (.pnode t attrs cs) defn) s
      | v =>
        match d.token_handler r d.cfg node v s with
        | (s1, chunks) => .ok (s1, chunks.map .chunk)
    | .joinRest r sub node xs =>
      match xs with
      | [] => .ok (s, [])
      | x :: rest =>
        match wk d fuel (.walkList node sub) s with
        | .error e => .error e
        | .ok (s1, sepItems) =>
          match wk d fuel (.resolveV r node x) s1 with
          | .error e => .error e
          | .ok (s2, xItems) =>
            match wk d fuel (.joinRest r sub node rest) s2 with
            | .error e => .error e
            | .ok (s3, restItems) => .ok (s3, sepItems ++ xItems ++ restItems)

/-! ## Layout batch resolution (walker.py `walk.process_layouts`) -/

/-- First pass of `process_layouts`: scan the buffered layout rule
chunks left to right, accumulating their rules on `rule_stack`; when
the dispatcher resolves the accumulated tuple, emit a normalized chunk
carrying the combined handler and the node of the *first* chunk of the
whole batch (`layout_rule_chunks[0].node`), and junk both stacks.
Returns (normalized chunks, leftover stack). -/
def normLoop {σ : Type} (d : Dispatcher σ) (n0 : PyVal) :
    List (LRC σ) → List LayoutT → List (LRC σ) → List (LRC σ) →
    List (LRC σ) × List (LRC σ)
  | [], _, lrcsStack, norm => (norm, lrcsStack)
  | l :: rest, ruleStack, lrcsStack, norm =>
    let rs : List LayoutT := ruleStack ++ [keyTag l.rule]
    match d.layoutFor (.tupleK rs) with
    | none => normLoop d n0 rest rs (lrcsStack ++ [l]) norm
    | some h => normLoop d n0 rest [] [] (norm ++ [⟨.tupleK rs, h, n0⟩])

/-- Second pass of `process_layouts`: invoke each handler with
(dispatcher, node, before, after, prev); `prev` is the text of the
previously emitted layout chunk of this same batch, and handlers that
emit nothing leave it unchanged (the `if not gen` guard for the None
returned by the no-op handler). -/
def runHandlers {σ : Type} (cfg : DCfg) (before after : Option String) :
    List (LRC σ) → Option String → σ → σ × List Chunk
  | [], _, s => (s, [])
  | l :: rest, prev, s =>
    match l.handler cfg l.node before after prev s with
    | (s1, cs) =>
      let prevNext := match cs.getLast? with
        | some c => some c.text
        | none => prev
      match runHandlers cfg before after rest prevNext s1 with
      | (s2, out) => (s2, cs ++ out)

/-- `process_layouts(layout_rule_chunks, last_chunk, chunk)`: resolve a
buffered batch against the chunk before it and the chunk about to be
emitted (either may be absent). -/
def processLayouts {σ : Type} (d : Dispatcher σ) (lrcs : List (LRC σ))
    (lastChunk nextChunk : Option Chunk) (s : σ) : σ × List Chunk :=
  let before := lastChunk.map Chunk.text
  let after := nextChunk.map Chunk.text
  match lrcs with
  | [] => (s, [])
  | l0 :: _ =>
    match normLoop d l0.node lrcs [] [] [] with
    | (norm, lrcsStack) => runHandlers d.cfg before after (norm ++ lrcsStack) none s

/-- The buffering loop of `walk`: forward real chunks, queue layout
rule chunks, and resolve each queued batch just before the next real
chunk (and once more at end of stream). -/
def walkBuffer {σ : Type} (d : Dispatcher σ) :
    List (WItem σ) → List (LRC σ) → Option Chunk → σ → σ × List Chunk
  | [], buf, last, s => processLayouts d buf last none s
  | .lrc l :: rest, buf, last, s => walkBuffer d rest (buf ++ [l]) last s
  | .chunk c :: rest, buf, last, s =>
    match processLayouts d buf last (some c) s with
    | (s1, layoutOut) =>
      match walkBuffer d rest [] (some c) s1 with
      | (s2, out) => (s2, layoutOut ++ [c] ++ out)

/-- `walk(dispatcher, node, definition)`: the complete traversal,
producing the final chunk sequence. -/
def walk {σ : Type} (d : Dispatcher σ) (fuel : Nat) (node : PyVal) (defn : List Rule) (s : σ) :
    Except PyErr (σ × List Chunk) :=
  match wk d fuel (.walkList node defn) s with
  | .error e => .error e
  | .ok (s1, items) => .ok (walkBuffer d items [] none s1)

/-- The text of a walk: the concatenation of every emitted chunk. -/
def renderedText {σ : Type} (r : Except PyErr (σ × List Chunk)) : Option String :=
  match r with
  | .ok (_, cs) => some (String.join (cs.map Chunk.text))
  | .error _ => none

/-- The type names of the queued layout rule chunks of a `_walk` item
stream, in order: which node queued each marker. -/
def lrcNodeNames {σ : Type} : List (WItem σ) → List String
  | [] => []
  | .lrc l :: rest => typenameOf l.node :: lrcNodeNames rest
  | .chunk _ :: rest => lrcNodeNames rest

/-! ## The deciding test scenario (tests/test_unparsers_walker.py)

`setup_handlers` closes over four mutable recorders; they form the
threaded state.  Handler invocations are recorded by node type name,
which is exactly what the test asserts (`isinstance(..., VarStatement)`
checks). -/

/-- The recorders of `setup_handlers`: handled tokens, handled layouts
(node type name, before, after, prev), declared variables, and the
replacement table read by the Resolve handler. -/
structure TestState where
  tokens_handled : List (String × String)
  layouts_handled : List (String × Option String × Option String × Option String)
  declared_vars : List String
  replacement : List (String × String)
  deriving DecidableEq

/-- The string payload of a value (the test scenario only renders
string-valued tokens). -/
def valText : PyVal → String
  | .pstr s => s
  | _ => ""

/-- The `value` attribute of a node as text ("" when absent; the test
nodes always carry it). -/
def nodeValueText (node : PyVal) : String :=
  match getattr node "value" with
  | some v => valText v
  | none => ""

/-- `simple_token_maker`: record the invocation, yield one chunk with
the derived value. -/
def simple_token_maker : TokenHandler TestState :=
  fun _r _cfg node v s =>
    ({ s with tokens_handled := s.tokens_handled ++ [(typenameOf node, valText v)] },
     [⟨valText v⟩])

/-- `simple_space`: record (node, before, after, prev), yield one space
chunk. -/
def simple_space : LayoutHandler TestState :=
  fun _cfg node before after prev s =>
    ({ s with layouts_handled := s.layouts_handled ++ [(typenameOf node, before, after, prev)] },
     [⟨" "⟩])

/-- The test's `declare` handler: append `node.value` to the declared
variables. -/
def declareRecorder : DCfg → PyVal → TestState → TestState :=
  fun _cfg node s => { s with declared_vars := s.declared_vars ++ [nodeValueText node] }

/-- The test's `replace` handler for Resolve: the replacement table's
entry for `node.value`, defaulting to `node.value` itself. -/
def replaceResolver : DCfg → PyVal → TestState → TestState × PyVal :=
  fun _cfg node s =>
    (s, .pstr ((alookup (nodeValueText node) s.replacement).getD (nodeValueText node)))

/-- `children_newline` (ruletypes.py line 385). -/
def children_newline : Rule := .joinAttr (.deferred .iter) [.layout .newline]

/-- `children_comma` (ruletypes.py line 386). -/
def children_comma : Rule := .joinAttr (.deferred .iter) [.text ",", .layout .space]

/-- The definitions of the test's Dispatcher (`PPVisitorTestCase.setUp`). -/
def testDefinitions : List (String × List Rule) :=
  [("ES5Program", [children_newline, .layout .newline]),
   ("VarStatement", [.text "var", .layout .space, children_comma, .text ";"]),
   ("VarDecl", [.attr (.deferred (.declare "identifier")),
                .layout .space, .operator none "=", .layout .space,
                .attr (.name "initializer")]),
   ("Identifier", [.attr (.deferred .resolve)]),
   ("Number", [.attr (.name "value")]),
   ("DotAccessor", [.attr (.name "node"), .text ".", .attr (.name "identifier")]),
   ("FunctionCall", [.attr (.name "identifier"), .attr (.name "args")]),
   ("Arguments", [.text "(",
                  .joinAttr (.name "items") [.text ",", .layout .space],
                  .text ")"])]

/-- The test's Dispatcher: the definitions above, the recording token
handler, `Space` as the only layout handler, `Declare`/`Resolve` as the
deferred handlers, default indent and newline strings. -/
def testDispatcher : Dispatcher TestState where
  definitions := testDefinitions
  token_handler := simple_token_maker
  layout_handlers := [(.single .space, simple_space)]
  declare_handler := some declareRecorder
  resolve_handler := some replaceResolver
  indent_str := "  "
  newline_str := "\n"

/-- The initial recorder state (empty replacement table). -/
def testState0 : TestState := ⟨[], [], [], []⟩

/-- The Identifier node `a` of the `"var a = 1;"` tree. -/
def idANode : PyVal := .pnode "Identifier" [("value", .pstr "a")] []

/-- The Number node `1` of the `"var a = 1;"` tree. -/
def numANode : PyVal := .pnode "Number" [("value", .pstr "1")] []

/-- The VarDecl node of the `"var a = 1;"` tree. -/
def varDeclA : PyVal :=
  .pnode "VarDecl" [("identifier", idANode), ("initializer", numANode)] []

/-- The VarStatement node of the `"var a = 1;"` tree (its declarations
are its children, consumed through `Iter`). -/
def varStmtA : PyVal := .pnode "VarStatement" [] [varDeclA]

/-- The tree the ES5 parser (external to these sources) produces for
`"var a = 1;"`: a program holding one var statement holding one var
declaration of identifier `a` initialized to number `1`. -/
def varA1Tree : PyVal := .pnode "ES5Program" [] [varStmtA]

/-- The full test walk: `walk(dispatcher, tree, dispatcher[tree])`. -/
def varA1Run : Except PyErr (TestState × List Chunk) :=
  walk testDispatcher 32 varA1Tree
    [children_newline, .layout .newline] testState0

/-- The layout invocations the test walk records. -/
def varA1Layouts : List (String × Option String × Option String × Option String) :=
  match varA1Run with
  | .ok (st, _) => st.layouts_handled
  | .error _ => []

/-! ## Fixtures for the layout-combination claims -/

/-- Log state for the combination scenarios: (handler tag, type name of
the node the handler was invoked with). -/
abbrev CexState : Type := List (String × String)

/-- A logging layout handler: records its tag and the received node,
emits `out` (nothing when `out` is empty, like the no-op). -/
def cexLayoutH (tag out : String) : LayoutHandler CexState :=
  fun _cfg node _before _after _prev s =>
    (s ++ [(tag, typenameOf node)], if out = "" then [] else [⟨out⟩])

/-- A pass-through token handler that renders the value's text. -/
def cexTokenH : TokenHandler CexState :=
  fun _r _cfg _node v s => (s, [⟨valText v⟩])

/-- Dispatcher for the combination-order scenario: the singleton tuple
`(Indent,)` and the pair `(Indent, Newline)` are both registered as
combined handlers, alongside the plain single-marker handlers. -/
def c2Dispatcher : Dispatcher CexState where
  definitions := [("T0", [.text "x", .layout .indent, .layout .newline, .text "y"])]
  token_handler := cexTokenH
  layout_handlers :=
    [(.single .indent, cexLayoutH "indent" "i"),
     (.single .newline, cexLayoutH "newline" "n"),
     (.tupleK [.indent], cexLayoutH "grp1" "1"),
     (.tupleK [.indent, .newline], cexLayoutH "grp2" "2")]
  declare_handler := none
  resolve_handler := none
  indent_str := "  "
  newline_str := "\n"

/-- The node for the combination-order scenario. -/
def t0Node : PyVal := .pnode "T0" [] []

/-- The definition registered for `T0`. -/
def t0Defn : List Rule := [.text "x", .layout .indent, .layout .newline, .text "y"]

/-- The combination-order walk under the code's combination pass. -/
def c2Run : Except PyErr (CexState × List Chunk) :=
  walk c2Dispatcher 32 t0Node t0Defn []

/-- The handler-invocation log of that walk. -/
def c2Log : CexState :=
  match c2Run with
  | .ok (st, _) => st
  | .error _ => []

/-- Dispatcher for the node-attribution scenario: two singleton-tuple
combined handlers that only log which node they receive. -/
def c3Dispatcher : Dispatcher CexState where
  definitions :=
    [("T1", [.text "x", .layout .indent, .attr (.name "child")]),
     ("T2", [.layout .newline, .text "y"])]
  token_handler := cexTokenH
  layout_handlers :=
    [(.tupleK [.indent], cexLayoutH "g1" ""),
     (.tupleK [.newline], cexLayoutH "g2" "")]
  declare_handler := none
  resolve_handler := none
  indent_str := "  "
  newline_str := "\n"

/-- The inner node of the attribution scenario (queues the Newline). -/
def t2Node : PyVal := .pnode "T2" [] []

/-- The outer node of the attribution scenario (queues the Indent). -/
def t1Node : PyVal := .pnode "T1" [("child", t2Node)] []

/-- The definition registered for `T1`. -/
def t1Defn : List Rule := [.text "x", .layout .indent, .attr (.name "child")]

/-- The node-attribution walk. -/
def c3Run : Except PyErr (CexState × List Chunk) :=
  walk c3Dispatcher 32 t1Node t1Defn []

/-- The handler-invocation log of the node-attribution walk. -/
def c3Log : CexState :=
  match c3Run with
  | .ok (st, _) => st
  | .error _ => []

/-- Which nodes queued the layout markers of the node-attribution walk
(read off the raw `_walk` item stream). -/
def c3QueuedBy : List String :=
  match wk c3Dispatcher 32 (.walkList t1Node t1Defn) ([] : CexState) with
  | .ok (_, items) => lrcNodeNames items
  | .error _ => []

/-- The layout batch of the node-attribution walk, as queued: the
Indent queued by the T1 node, then the Newline queued by the T2 node
(both unregistered as singles, hence carrying the no-op handler). -/
def c3Batch : List (LRC CexState) :=
  [⟨.single .indent, rule_handler_noop, t1Node⟩,
   ⟨.single .newline, rule_handler_noop, t2Node⟩]

/-! The next definitions follow the claim's words for the combination
pass — "consecutive marker rules are combined greedily into the longest
prefix that has a handler registered for that tuple of markers" — to be
compared with `normLoop`. -/

/-- The length of the longest prefix of `rules` whose tuple has a
registered handler, if any. -/
def longestMatch {σ : Type} (d : Dispatcher σ) (rules : List LayoutT) : Option Nat :=
  (List.range' 1 rules.length).reverse.find?
    (fun k => (d.layoutFor (.tupleK (rules.take k))).isSome)

/-- The combination pass as the claim words it: repeatedly take the
longest matching prefix of the remaining markers as one combined chunk
(attributed to the node of its own first marker); a marker beginning no
match falls back to its queue-time handler. -/
def claimedNormalize {σ : Type} (d : Dispatcher σ) : Nat → List (LRC σ) → List (LRC σ)
  | 0, lrcs => lrcs
  | _, [] => []
  | fuel + 1, l :: rest =>
    let rules := (l :: rest).map (fun x => keyTag x.rule)
    match longestMatch d rules with
    | some k =>
      match d.layoutFor (.tupleK (rules.take k)) with
      | some h => ⟨.tupleK (rules.take k), h, l.node⟩ :: claimedNormalize d fuel ((l :: rest).drop k)
      | none => l :: claimedNormalize d fuel rest
    | none => l :: claimedNormalize d fuel rest

/-- `process_layouts` as the claim words it. -/
def claimedProcessLayouts {σ : Type} (d : Dispatcher σ) (lrcs : List (LRC σ))
    (lastChunk nextChunk : Option Chunk) (s : σ) : σ × List Chunk :=
  runHandlers d.cfg (lastChunk.map Chunk.text) (nextChunk.map Chunk.text)
    (claimedNormalize d lrcs.length lrcs) none s

/-- The buffering walk loop with the claim's combination pass. -/
def claimedWalkBuffer {σ : Type} (d : Dispatcher σ) :
    List (WItem σ) → List (LRC σ) → Option Chunk → σ → σ × List Chunk
  | [], buf, last, s => claimedProcessLayouts d buf last none s
  | .lrc l :: rest, buf, last, s => claimedWalkBuffer d rest (buf ++ [l]) last s
  | .chunk c :: rest, buf, last, s =>
    match claimedProcessLayouts d buf last (some c) s with
    | (s1, layoutOut) =>
      match claimedWalkBuffer d rest [] (some c) s1 with
      | (s2, out) => (s2, layoutOut ++ [c] ++ out)

/-- `walk` with the claim's combination pass. -/
def claimedWalk {σ : Type} (d : Dispatcher σ) (fuel : Nat) (node : PyVal)
    (defn : List Rule) (s : σ) : Except PyErr (σ × List Chunk) :=
  match wk d fuel (.walkList node defn) s with
  | .error e => .error e
  | .ok (s1, items) => .ok (claimedWalkBuffer d items [] none s1)

/-- The combination-order walk under the claim's longest-prefix
combination pass. -/
def c2RunClaimed : Except PyErr (CexState × List Chunk) :=
  claimedWalk c2Dispatcher 32 t0Node t0Defn []

/-! ## Fixtures for the Declare/Attr claims -/

/-- A token handler that emits nothing and keeps no state. -/
def unitTokenH : TokenHandler Unit := fun _ _ _ _ s => (s, [])

/-- A dispatcher with no handlers registered at all. -/
def bareDispatcher : Dispatcher Unit where
  definitions := []
  token_handler := unitTokenH
  layout_handlers := []
  declare_handler := none
  resolve_handler := none
  indent_str := "  "
  newline_str := "\n"

/-- A node whose `items` attribute is an empty list. -/
def emptyAttrNode : PyVal := .pnode "Arguments" [("items", .plist [])] []

/-- A Number node (not an identifier-kind node). -/
def numNodeCex : PyVal := .pnode "Number" [("value", .pstr "1")] []

/-- A VarDecl whose `identifier` attribute holds that Number node. -/
def declParentCex : PyVal := .pnode "VarDecl" [("identifier", numNodeCex)] []

/-! ## Dispatcher construction (walker.py `Dispatcher.__init__`)

The constructor's frame property is about Python object aliasing, so
this part of the model makes the heap explicit: a store of dictionary
objects addressed by references, generic in the entry types (the three
tables only differ there).  `__init__` builds a fresh empty dict per
table and `update`s it from the caller's dict, so the private tables
are fresh objects whose contents are a copy taken at construction
time. -/

/-- A dictionary object: its entry list. -/
def Dict (κ β : Type) : Type := List (κ × β)

/-- A heap of dictionary objects; references `≥ next` are unallocated. -/
structure Store (α : Type) where
  next : Nat
  mem : Nat → α

/-- Overwrite the object at reference `r`. -/
def Store.write {α : Type} (st : Store α) (r : Nat) (v : α) : Store α :=
  ⟨st.next, fun i => if i = r then v else st.mem i⟩

/-- Allocate a fresh object. -/
def Store.alloc {α : Type} (st : Store α) (v : α) : Nat × Store α :=
  (st.next, ⟨st.next + 1, fun i => if i = st.next then v else st.mem i⟩)

/-- `{}` followed by `.update(src)`: a dict with the same mapping as
`src` at that moment. -/
def dictUpdated {κ β : Type} (src : Dict κ β) : Dict κ β := src

/-- The dispatcher object: references to its three private tables plus
the two layout strings (exposed through getter-only properties). -/
structure DispObj where
  layoutRef : Nat
  deferredRef : Nat
  defsRef : Nat
  indentS : String
  newlineS : String

/-- `Dispatcher.__init__` (walker.py lines 112-120): allocate a private
dict per table, copying the caller's current contents, in source order
(layout handlers, deferred handlers, definitions), and store the two
strings. -/
def dispNew {κ β : Type} (st : Store (Dict κ β))
    (defsSrc layoutSrc deferredSrc : Nat) (ind nl : String) :
    DispObj × Store (Dict κ β) :=
  let (rL, st1) := st.alloc (dictUpdated (st.mem layoutSrc))
  let (rD, st2) := st1.alloc (dictUpdated (st1.mem deferredSrc))
  let (rDef, st3) := st2.alloc (dictUpdated (st2.mem defsSrc))
  (⟨rL, rD, rDef, ind, nl⟩, st3)

/-- `dispatcher[key]`: definition lookup in the private table. -/
def dispGetItem {κ β : Type} [DecidableEq κ] (st : Store (Dict κ β)) (dsp : DispObj) (k : κ) :
    Option β :=
  alookup k (st.mem dsp.defsRef)

/-- `dispatcher(rule)` for a layout key. -/
def dispCallLayout {κ β : Type} [DecidableEq κ] (st : Store (Dict κ β)) (dsp : DispObj) (k : κ) :
    Option β :=
  alookup k (st.mem dsp.layoutRef)

/-- `dispatcher(rule)` for a deferred kind. -/
def dispCallDeferred {κ β : Type} [DecidableEq κ] (st : Store (Dict κ β)) (dsp : DispObj) (k : κ) :
    Option β :=
  alookup k (st.mem dsp.deferredRef)

/-! ## Scope tracking (mangler.py) -/

/-- `Scope.__init__`: owning node (by type name here), parent
back-reference, the consumed-symbol set (taken from the parent, else
fresh), per-scope reference counts, and locally declared names. -/
inductive ScopeS where
  | mk (node : Option String) (parent : Option ScopeS)
      (consumed_symbols : List String)
      (referenced_symbols : List (String × Nat))
      (local_symbols : List String)

/-- The consumed-symbol set of a scope. -/
def ScopeS.consumed : ScopeS → List String
  | .mk _ _ c _ _ => c

/-- `Scope(node, parent)`. -/
def scopeNew (node : Option String) (parent : Option ScopeS) : ScopeS :=
  .mk node parent
    (match parent with
     | some p => p.consumed
     | none => [])
    [] []

/-- The attribute names a Python `list` object exposes as methods;
`push` is not among them. -/
def pyListMethods : List String :=
  ["append", "clear", "copy", "count", "extend", "index", "insert",
   "pop", "remove", "reverse", "sort"]

/-- Attribute access on a list object: an unknown method name raises
`AttributeError`. -/
def listGetAttr (name : String) : Except PyErr Unit :=
  if name ∈ pyListMethods then .ok () else .error (.attributeError name)

/-- The Shortener's state: the node-to-scope mapping and the scope
stack. -/
structure ShortenerS where
  scopes : List (String × ScopeS)
  stack : List ScopeS

/-- `Shortener.__init__` (mangler.py lines 62-77): empty scopes and
stack; with `use_global_scope` it executes `self.stack.push(...)`,
whose attribute access fails before any scope is pushed. -/
def shortenerNew (use_global_scope : Bool) : Except PyErr ShortenerS :=
  let scopes : List (String × ScopeS) := []
  let stack : List ScopeS := []
  if use_global_scope then
    match listGetAttr "push" with
    | .ok _ => .ok ⟨scopes, stack ++ [scopeNew none none]⟩
    | .error e => .error e
  else .ok ⟨scopes, stack⟩

end CalmjsParse
namespace CalmjsParse

/-! ## Lemmas: VLQ codec round trip -/

theorem b64Index_b64Char_fin : ∀ i : Fin 64, b64Index (b64Char i.1) = some i.1 := by decide

theorem b64Index_b64Char {i : Nat} (h : i < 64) : b64Index (b64Char i) = some i :=
  b64Index_b64Char_fin ⟨i, h⟩

theorem digitsVal_append (acc : List Nat) (d : Nat) :
    digitsVal (acc ++ [d]) = digitsVal acc + 32 ^ acc.length * d := by
  induction acc with
  | nil => simp [digitsVal]
  | cons a acc ih =>
    simp only [List.cons_append, digitsVal, List.foldr_cons] at *
    rw [ih, List.length_cons, pow_succ]
    ring

theorem decodeVlqOne_digits (rest : List Char) :
    ∀ fuel u acc, u ≤ fuel →
      decodeVlqOne ((vlqDigitsGo fuel u).map b64Char ++ rest) acc =
        .ok (vlqSigned (digitsVal acc + 32 ^ acc.length * u)) := by
  intro fuel
  induction fuel with
  | zero =>
    intro u acc h
    have hu : u = 0 := by omega
    subst hu
    simp [vlqDigitsGo, decodeVlqOne, b64Index_b64Char (show (0:Nat) < 64 by omega),
      digitsVal_append]
  | succ f ih =>
    intro u acc h
    by_cases hu : u < 32
    · simp [vlqDigitsGo, hu, decodeVlqOne, b64Index_b64Char (show u < 64 by omega),
        digitsVal_append]
    · have hd : u % 32 + 32 < 64 := by
        have := Nat.mod_lt u (show 0 < 32 by omega)
        omega
      have hrec : u / 32 ≤ f := by
        have := Nat.div_lt_self (show 0 < u by omega) (show 1 < 32 by omega)
        omega
      simp only [vlqDigitsGo, if_neg hu, List.map_cons, List.cons_append, decodeVlqOne,
        b64Index_b64Char hd]
      rw [if_neg (by omega)]
      have hsub : u % 32 + 32 - 32 = u % 32 := by omega
      rw [hsub, ih (u / 32) (acc ++ [u % 32]) hrec, digitsVal_append]
      congr 2
      rw [List.length_append, List.length_cons, List.length_nil, pow_succ]
      have hmod : u % 32 + 32 * (u / 32) = u := Nat.mod_add_div u 32
      calc digitsVal acc + 32 ^ acc.length * (u % 32) + 32 ^ acc.length * 32 * (u / 32)
          = digitsVal acc + 32 ^ acc.length * (u % 32 + 32 * (u / 32)) := by ring
        _ = digitsVal acc + 32 ^ acc.length * u := by rw [hmod]

theorem decodeVlqsGo_digits (rest : List Char) :
    ∀ fuel u acc, u ≤ fuel →
      decodeVlqsGo ((vlqDigitsGo fuel u).map b64Char ++ rest) acc =
        match decodeVlqsGo rest [] with
        | .ok vs => .ok (vlqSigned (digitsVal acc + 32 ^ acc.length * u) :: vs)
        | .error e => .error e := by
  intro fuel
  induction fuel with
  | zero =>
    intro u acc h
    have hu : u = 0 := by omega
    subst hu
    simp [vlqDigitsGo, decodeVlqsGo, b64Index_b64Char (show (0:Nat) < 64 by omega),
      digitsVal_append]
  | succ f ih =>
    intro u acc h
    by_cases hu : u < 32
    · simp [vlqDigitsGo, hu, decodeVlqsGo, b64Index_b64Char (show u < 64 by omega),
        digitsVal_append]
    · have hd : u % 32 + 32 < 64 := by
        have := Nat.mod_lt u (show 0 < 32 by omega)
        omega
      have hrec : u / 32 ≤ f := by
        have := Nat.div_lt_self (show 0 < u by omega) (show 1 < 32 by omega)
        omega
      simp only [vlqDigitsGo, if_neg hu, List.map_cons, List.cons_append, decodeVlqsGo,
        b64Index_b64Char hd]
      rw [if_neg (by omega)]
      have hsub : u % 32 + 32 - 32 = u % 32 := by omega
      rw [hsub, ih (u / 32) (acc ++ [u % 32]) hrec, digitsVal_append]
      have hlen : (acc ++ [u % 32]).length = acc.length + 1 := by simp
      rw [hlen, pow_succ]
      have hmod : u % 32 + 32 * (u / 32) = u := Nat.mod_add_div u 32
      have hval : digitsVal acc + 32 ^ acc.length * (u % 32) + 32 ^ acc.length * 32 * (u / 32)
          = digitsVal acc + 32 ^ acc.length * u := by
        calc digitsVal acc + 32 ^ acc.length * (u % 32) + 32 ^ acc.length * 32 * (u / 32)
            = digitsVal acc + 32 ^ acc.length * (u % 32 + 32 * (u / 32)) := by ring
          _ = digitsVal acc + 32 ^ acc.length * u := by rw [hmod]
      rw [hval]

theorem vlqSigned_vlqUnsigned (n : Int) : vlqSigned (vlqUnsigned n) = n := by
  unfold vlqUnsigned vlqSigned
  simp only [Int.ofNat_eq_natCast]
  by_cases hneg : n < 0
  · rw [if_pos hneg]
    have h2 : (2 * -n + 1).toNat = 2 * (-n).toNat + 1 := by omega
    rw [h2, if_pos (by omega)]
    have h3 : (2 * (-n).toNat + 1) / 2 = (-n).toNat := by omega
    rw [h3]
    omega
  · rw [if_neg hneg]
    have h2 : (2 * n).toNat = 2 * n.toNat := by omega
    rw [h2, if_neg (by omega)]
    have h3 : 2 * n.toNat / 2 = n.toNat := by omega
    rw [h3]
    omega

theorem decode_vlq_encode_vlq (n : Int) : decode_vlq (encode_vlq n) = .ok n := by
  have hdata : (encode_vlq n).data = encodeVlqChars n := rfl
  rw [decode_vlq, hdata, encodeVlqChars, vlqDigits, ← List.append_nil
    ((vlqDigitsGo (vlqUnsigned n) (vlqUnsigned n)).map b64Char),
    decodeVlqOne_digits [] (vlqUnsigned n) (vlqUnsigned n) [] (Nat.le_refl _)]
  simp [digitsVal, vlqSigned_vlqUnsigned]

theorem decodeVlqsGo_encode (ns : List Int) :
    decodeVlqsGo (encodeVlqsChars ns) [] = .ok ns := by
  induction ns with
  | nil => rfl
  | cons n ns ih =>
    have hflat : encodeVlqsChars (n :: ns) = encodeVlqChars n ++ encodeVlqsChars ns := by
      simp [encodeVlqsChars]
    rw [hflat, encodeVlqChars, vlqDigits,
      decodeVlqsGo_digits (encodeVlqsChars ns) (vlqUnsigned n) (vlqUnsigned n) [] (Nat.le_refl _),
      ih]
    simp [digitsVal, vlqSigned_vlqUnsigned]

/-! ## Lemmas: mappings round trip -/

theorem vlqDigitsGo_lt (fuel : Nat) :
    ∀ u, u ≤ fuel → ∀ x ∈ vlqDigitsGo fuel u, x < 64 := by
  induction fuel with
  | zero =>
    intro u h x hx
    have hu : u = 0 := by omega
    subst hu
    simp [vlqDigitsGo] at hx
    omega
  | succ f ih =>
    intro u h x hx
    by_cases hu : u < 32
    · simp [vlqDigitsGo, hu] at hx
      omega
    · simp only [vlqDigitsGo, if_neg hu, List.mem_cons] at hx
      rcases hx with hx | hx
      · have := Nat.mod_lt u (show 0 < 32 by omega)
        omega
      · exact ih (u / 32)
          (by
            have := Nat.div_lt_self (show 0 < u by omega) (show 1 < 32 by omega)
            omega) x hx

theorem mem_encodeVlqChars_b64 (n : Int) :
    ∀ c ∈ encodeVlqChars n, c ∈ B64_CHARS := by
  intro c hc
  simp only [encodeVlqChars, List.mem_map] at hc
  obtain ⟨d, hd, hcd⟩ := hc
  have hlt : d < 64 := vlqDigitsGo_lt (vlqUnsigned n) (vlqUnsigned n) (Nat.le_refl _) d hd
  have hb : b64Char d = B64_CHARS.getD d '?' := rfl
  have hlen : d < B64_CHARS.length := by
    have : B64_CHARS.length = 64 := by decide
    omega
  rw [← hcd, hb, List.getD_eq_getElem B64_CHARS '?' hlen]
  exact List.getElem_mem hlen

theorem mem_encodeVlqsChars_b64 (ns : List Int) :
    ∀ c ∈ encodeVlqsChars ns, c ∈ B64_CHARS := by
  intro c hc
  simp only [encodeVlqsChars, List.mem_flatten, List.mem_map] at hc
  obtain ⟨l, ⟨n, _, hl⟩, hcl⟩ := hc
  exact mem_encodeVlqChars_b64 n c (hl ▸ hcl)

theorem encodeVlqChars_ne_nil (n : Int) : encodeVlqChars n ≠ [] := by
  unfold encodeVlqChars vlqDigits
  cases h : vlqDigitsGo (vlqUnsigned n) (vlqUnsigned n) with
  | nil =>
    exfalso
    cases hf : vlqUnsigned n with
    | zero => rw [hf] at h; simp [vlqDigitsGo] at h
    | succ f =>
      rw [hf] at h
      unfold vlqDigitsGo at h
      by_cases hq : f + 1 < 32
      · rw [if_pos hq] at h; exact List.noConfusion h
      · rw [if_neg hq] at h; exact List.noConfusion h
  | cons a l => simp

theorem encodeSegChars_ne_nil (g : Seg) : encodeSegChars g ≠ [] := by
  obtain ⟨a, b, c, d⟩ := g
  have h1 : encodeVlqsChars [a, b, c, d] =
      encodeVlqChars a ++ encodeVlqsChars [b, c, d] := by
    simp [encodeVlqsChars]
  unfold encodeSegChars
  rw [h1]
  intro hcontra
  exact encodeVlqChars_ne_nil a (List.append_eq_nil.mp hcontra).1

theorem mem_encodeSegChars_b64 (g : Seg) :
    ∀ c ∈ encodeSegChars g, c ∈ B64_CHARS := by
  intro c hc
  exact mem_encodeVlqsChars_b64 _ c hc

theorem decodeSegChars_encodeSegChars (g : Seg) :
    decodeSegChars (encodeSegChars g) = .ok g := by
  obtain ⟨a, b, c, d⟩ := g
  unfold decodeSegChars encodeSegChars
  rw [decodeVlqsGo_encode [a, b, c, d]]

theorem mem_of_mem_intersperse {sep l : List Char} :
    ∀ pieces : List (List Char), l ∈ pieces.intersperse sep → l = sep ∨ l ∈ pieces := by
  intro pieces
  induction pieces with
  | nil => intro h; simp at h
  | cons p rest ih =>
    intro h
    cases rest with
    | nil =>
      simp at h
      exact Or.inr (by simp [h])
    | cons q rs =>
      rw [List.intersperse_cons_cons] at h
      rcases List.mem_cons.mp h with h1 | h1
      · exact Or.inr (by simp [h1])
      · rcases List.mem_cons.mp h1 with h2 | h2
        · exact Or.inl h2
        · rcases ih h2 with h3 | h3
          · exact Or.inl h3
          · exact Or.inr (List.mem_cons_of_mem _ h3)

theorem mem_intercalate_cases {x : Char} {c : Char} (pieces : List (List Char))
    (h : c ∈ [x].intercalate pieces) : c = x ∨ ∃ p ∈ pieces, c ∈ p := by
  rw [List.intercalate] at h
  rcases List.mem_flatten.mp h with ⟨l, hl, hcl⟩
  rcases mem_of_mem_intersperse pieces hl with h1 | h1
  · subst h1
    simp at hcl
    exact Or.inl hcl
  · exact Or.inr ⟨l, h1, hcl⟩

theorem comma_not_b64 : (',' ∈ B64_CHARS) = False := by decide

theorem semi_not_b64 : (';' ∈ B64_CHARS) = False := by decide

theorem mapM_decodeSeg (segs : List Seg) :
    (segs.map encodeSegChars).mapM decodeSegChars = .ok segs := by
  induction segs with
  | nil => rfl
  | cons g rest ih =>
    rw [List.map_cons, List.mapM_cons, decodeSegChars_encodeSegChars]
    simp only [bind, Except.bind, ih, pure, Except.pure]

theorem decodeLine_encodeLine (segs : List Seg) :
    decodeLineChars (encodeLineChars segs) = .ok segs := by
  cases hs : segs with
  | nil => rfl
  | cons g rest =>
    unfold decodeLineChars encodeLineChars
    rw [← hs]
    have hx : ∀ l ∈ segs.map encodeSegChars, ',' ∉ l := by
      intro l hl hcl
      simp only [List.mem_map] at hl
      obtain ⟨g0, _, hg⟩ := hl
      have := mem_encodeSegChars_b64 g0 ',' (hg ▸ hcl)
      rw [comma_not_b64] at this
      exact this
    have hne : segs.map encodeSegChars ≠ [] := by
      rw [hs]
      simp
    rw [List.splitOn_intercalate (segs.map encodeSegChars) ',' hx hne]
    have hfilter : (segs.map encodeSegChars).filter (fun seg => decide (seg ≠ [])) =
        segs.map encodeSegChars := by
      rw [List.filter_eq_self]
      intro l hl
      simp only [List.mem_map] at hl
      obtain ⟨g0, _, hg⟩ := hl
      simp [← hg, encodeSegChars_ne_nil g0]
    rw [hfilter, mapM_decodeSeg]

theorem mem_encodeLineChars (line : List Seg) :
    ∀ c ∈ encodeLineChars line, c ∈ B64_CHARS ∨ c = ',' := by
  intro c hc
  rcases mem_intercalate_cases (line.map encodeSegChars) hc with h | ⟨p, hp, hcp⟩
  · exact Or.inr h
  · simp only [List.mem_map] at hp
    obtain ⟨g0, _, hg⟩ := hp
    exact Or.inl (mem_encodeSegChars_b64 g0 c (hg ▸ hcp))

theorem mapM_decodeLine (groups : List (List Seg)) :
    (groups.map encodeLineChars).mapM decodeLineChars = .ok groups := by
  induction groups with
  | nil => rfl
  | cons line rest ih =>
    rw [List.map_cons, List.mapM_cons, decodeLine_encodeLine]
    simp only [bind, Except.bind, ih, pure, Except.pure]

theorem decodeMappings_encodeMappings (groups : List (List Seg)) (hne : groups ≠ []) :
    decode_mappings (encode_mappings groups) = .ok groups := by
  have hdata : (encode_mappings groups).data = encodeMappingsChars groups := rfl
  rw [decode_mappings, hdata]
  unfold decodeMappingsChars encodeMappingsChars
  have hx : ∀ l ∈ groups.map encodeLineChars, ';' ∉ l := by
    intro l hl hcl
    simp only [List.mem_map] at hl
    obtain ⟨line, _, hline⟩ := hl
    rcases mem_encodeLineChars line ';' (hline ▸ hcl) with h | h
    · rw [semi_not_b64] at h
      exact h
    · exact absurd h (by decide)
  have hne2 : groups.map encodeLineChars ≠ [] := by
    intro hcontra
    exact hne (List.map_eq_nil_iff.mp hcontra)
  rw [List.splitOn_intercalate (groups.map encodeLineChars) ';' hx hne2, mapM_decodeLine]

/-! ## Claim theorems: VLQ codec -/

/-- C4: VLQ scalar codec correctness.  For every integer n,
decode_vlq (encode_vlq n) recovers n exactly, and the concrete
encodings of 0, 1, -1, 16 and -512 are "A", "C", "D", "gB" and "hgB".
(vlq.py is not among the provided sources; both functions are modelled
from the spec, and the literals coincide with the expectations of the
in-source tests/test_vlq.py.) -/
theorem vlq_scalar_roundtrip :
    (∀ n : Int, decode_vlq (encode_vlq n) = .ok n) ∧
      encode_vlq 0 = "A" ∧ encode_vlq 1 = "C" ∧ encode_vlq (-1) = "D" ∧
      encode_vlq 16 = "gB" ∧ encode_vlq (-512) = "hgB" :=
  ⟨decode_vlq_encode_vlq, by decide, by decide, by decide, by decide, by decide⟩

/-- C5 counterexample: the encoder the claim describes (per-field delta
computation with generated_column resetting per line, and a trailing
`;` terminating every line including the last) does not produce the
output the claim itself asserts for its concrete input; the
test-constrained encoder does. -/
theorem mappings_claim_counterexample :
    encode_mappings_claimed [[(0, 0, 0, 0), (6, 0, 0, 6), (6, 0, 0, 6)], []] =
        "AAAA,MAAM,AAAA;;" ∧
      encode_mappings [[(0, 0, 0, 0), (6, 0, 0, 6), (6, 0, 0, 6)], []] =
        "AAAA,MAAM,MAAM;" ∧
      ("AAAA,MAAM,AAAA;;" : String) ≠ "AAAA,MAAM,MAAM;" :=
  ⟨by decide, by decide, by decide⟩

/-- C5 (amended): for every nonempty groups value — an ordered sequence
of lines, each an ordered sequence of 4-tuples holding the segment
fields exactly as they are to be written (the caller supplies the
deltas; the encoder computes none) — decode_mappings inverts
encode_mappings, including groups containing empty lines; segments are
joined with `,` and lines with `;`, the trailing `;` of the test
literals being the separator in front of a final empty line.  The
concrete literals match tests/test_vlq.py. -/
theorem mappings_roundtrip :
    (∀ groups : List (List Seg), groups ≠ [] →
        decode_mappings (encode_mappings groups) = .ok groups) ∧
      encode_mappings [[(0, 0, 0, 0), (6, 0, 0, 6), (6, 0, 0, 6)], []] =
        "AAAA,MAAM,MAAM;" ∧
      encode_mappings [[(0, 0, 0, 0)], [(0, 0, 1, 0)], [(0, 0, 1, 0)], []] =
        "AAAA;AACA;AACA;" :=
  ⟨decodeMappings_encodeMappings, by decide, by decide⟩

/-- Witness for the round-trip theorem at the claim's concrete input. -/
theorem mappings_roundtrip_witness :
    ([[(0, 0, 0, 0), (6, 0, 0, 6), (6, 0, 0, 6)], []] : List (List Seg)) ≠ [] ∧
      decode_mappings (encode_mappings [[(0, 0, 0, 0), (6, 0, 0, 6), (6, 0, 0, 6)], []]) =
        .ok [[(0, 0, 0, 0), (6, 0, 0, 6), (6, 0, 0, 6)], []] :=
  ⟨by decide, mappings_roundtrip.1 [[(0, 0, 0, 0), (6, 0, 0, 6), (6, 0, 0, 6)], []] (by decide)⟩

/-! ## Lemmas: the combination pass -/

theorem normLoop_acc {σ : Type} (d : Dispatcher σ) (n0 : PyVal) :
    ∀ (lrcs : List (LRC σ)) (rs : List LayoutT) (st norm : List (LRC σ)),
      normLoop d n0 lrcs rs st norm =
        (norm ++ (normLoop d n0 lrcs rs st []).1, (normLoop d n0 lrcs rs st []).2) := by
  intro lrcs
  induction lrcs with
  | nil => intro rs st norm; simp [normLoop]
  | cons l rest ih =>
    intro rs st norm
    simp only [normLoop]
    cases hl : d.layoutFor (.tupleK (rs ++ [keyTag l.rule])) with
    | none =>
      dsimp only
      rw [ih (rs ++ [keyTag l.rule]) (st ++ [l]) norm,
        ih (rs ++ [keyTag l.rule]) (st ++ [l]) []]
    | some h =>
      dsimp only
      rw [ih [] [] (norm ++ [(⟨.tupleK (rs ++ [keyTag l.rule]), h, n0⟩ : LRC σ)]),
        ih [] [] ([] ++ [(⟨.tupleK (rs ++ [keyTag l.rule]), h, n0⟩ : LRC σ)])]
      simp

theorem normLoop_nomatch {σ : Type} (d : Dispatcher σ) (n0 : PyVal) :
    ∀ (lrcs : List (LRC σ)) (rs : List LayoutT) (st norm : List (LRC σ)),
      (∀ k, 0 < k → k ≤ lrcs.length →
        d.layoutFor (.tupleK (rs ++ (lrcs.map (fun l => keyTag l.rule)).take k)) = none) →
      normLoop d n0 lrcs rs st norm = (norm, st ++ lrcs) := by
  intro lrcs
  induction lrcs with
  | nil => intro rs st norm _; simp [normLoop]
  | cons l rest ih =>
    intro rs st norm hk
    have h1 : d.layoutFor (.tupleK (rs ++ [keyTag l.rule])) = none := by
      have := hk 1 (by omega) (by simp)
      simpa using this
    simp only [normLoop, h1]
    rw [ih (rs ++ [keyTag l.rule]) (st ++ [l]) norm ?_]
    · simp
    · intro k hk0 hkl
      have := hk (k + 1) (by omega) (by simp; omega)
      simp only [List.map_cons, List.take_succ_cons] at this
      simpa [List.append_assoc] using this

theorem normLoop_stack_mem {σ : Type} (d : Dispatcher σ) (n0 : PyVal) :
    ∀ (lrcs : List (LRC σ)) (rs : List LayoutT) (st norm : List (LRC σ)) (l : LRC σ),
      l ∈ (normLoop d n0 lrcs rs st norm).2 → l ∈ st ∨ l ∈ lrcs := by
  intro lrcs
  induction lrcs with
  | nil => intro rs st norm l hl; simp [normLoop] at hl; exact Or.inl hl
  | cons x rest ih =>
    intro rs st norm l hl
    simp only [normLoop] at hl
    cases hx : d.layoutFor (.tupleK (rs ++ [keyTag x.rule])) with
    | none =>
      rw [hx] at hl
      dsimp only at hl
      rcases ih _ _ _ l hl with h1 | h1
      · rcases List.mem_append.mp h1 with h2 | h2
        · exact Or.inl h2
        · simp at h2
          exact Or.inr (by simp [h2])
      · exact Or.inr (List.mem_cons_of_mem _ h1)
    | some h =>
      rw [hx] at hl
      dsimp only at hl
      rcases ih _ _ _ l hl with h1 | h1
      · simp at h1
      · exact Or.inr (List.mem_cons_of_mem _ h1)

theorem normLoop_norm_node {σ : Type} (d : Dispatcher σ) (n0 : PyVal) :
    ∀ (lrcs : List (LRC σ)) (rs : List LayoutT) (st norm : List (LRC σ)) (g : LRC σ),
      g ∈ (normLoop d n0 lrcs rs st norm).1 → g ∈ norm ∨ g.node = n0 := by
  intro lrcs
  induction lrcs with
  | nil => intro rs st norm g hg; simp [normLoop] at hg; exact Or.inl hg
  | cons x rest ih =>
    intro rs st norm g hg
    simp only [normLoop] at hg
    cases hx : d.layoutFor (.tupleK (rs ++ [keyTag x.rule])) with
    | none =>
      rw [hx] at hg
      dsimp only at hg
      exact ih _ _ _ g hg
    | some h =>
      rw [hx] at hg
      dsimp only at hg
      rcases ih _ _ _ g hg with h1 | h1
      · rcases List.mem_append.mp h1 with h2 | h2
        · exact Or.inl h2
        · simp at h2
          subst h2
          exact Or.inr rfl
      · exact Or.inr h1

/-! ## Claim theorems: walk engine -/

/-- C1: render round-trip identity at the spec's designated concrete
case: walking the tree of `"var a = 1;"` with the identity-style
grammar (the test's definitions for ES5Program, VarStatement, VarDecl,
Identifier and Number plus the space-emitting Space handler) and
concatenating every emitted chunk's text reproduces exactly
`"var a = 1;"`.  (The parser producing the tree is external to the
provided sources; the walk itself is the embedded code.) -/
theorem render_roundtrip_var_a_1 : renderedText varA1Run = some "var a = 1;" := by decide

/-- C2 counterexample: with the pair `(Indent, Newline)` registered as
a combined handler *and* the singleton tuple `(Indent,)` also
registered, the code resolves the buffered run `[Indent, Newline]` to
the `(Indent,)` handler plus the Newline fallback (output `x1ny`, log
showing `grp1` then the single `newline` handler), not to the
longest-prefix pair handler as the claim states (which would give
`x2y`). -/
theorem layout_combination_counterexample :
    c2Dispatcher.layoutFor (.tupleK [.indent, .newline]) = some (cexLayoutH "grp2" "2") ∧
      renderedText c2Run = some "x1ny" ∧
      renderedText c2RunClaimed = some "x2y" ∧
      c2Log = [("grp1", "T0"), ("newline", "T0")] :=
  ⟨rfl, by decide, by decide, by decide⟩

/-- C2 (amended): when a buffered batch is resolved, the markers are
scanned left to right while accumulating a tuple; the scan cuts a
combined chunk as soon as the accumulated tuple has a registered
handler — the *shortest* matching accumulated run wins, not the
longest — and restarts with an empty accumulation; markers never
covered by a match (in particular the whole batch when no accumulated
tuple ever matches) fall back, in order, to the single-marker handler
resolved when they were queued, the no-op handler standing in for an
unregistered single marker at queue time. -/
theorem layout_combination_behavior :
    (∀ (σ : Type) (d : Dispatcher σ) (n0 : PyVal) (lrcs : List (LRC σ)),
        (∀ k, 0 < k → k ≤ lrcs.length →
          d.layoutFor (.tupleK ((lrcs.map (fun l => keyTag l.rule)).take k)) = none) →
        normLoop d n0 lrcs [] [] [] = ([], lrcs)) ∧
      (∀ (σ : Type) (d : Dispatcher σ) (n0 : PyVal) (l : LRC σ) (rest : List (LRC σ))
          (hand : LayoutHandler σ),
        d.layoutFor (.tupleK [keyTag l.rule]) = some hand →
        normLoop d n0 (l :: rest) [] [] [] =
          (⟨.tupleK [keyTag l.rule], hand, n0⟩ :: (normLoop d n0 rest [] [] []).1,
            (normLoop d n0 rest [] [] []).2)) ∧
      (∀ (σ : Type) (d : Dispatcher σ) (node : PyVal) (m : LayoutT) (s : σ) (fuel : Nat),
        wk d (fuel + 2) (.walkList node [.layout m]) s =
          .ok (s, [.lrc ⟨.single m, (d.layoutFor (.single m)).getD rule_handler_noop, node⟩])) := by
  refine ⟨?_, ?_, ?_⟩
  · intro σ d n0 lrcs hk
    have := normLoop_nomatch d n0 lrcs [] [] [] (by simpa using hk)
    simpa using this
  · intro σ d n0 l rest hand hh
    simp only [normLoop]
    rw [show ([] : List LayoutT) ++ [keyTag l.rule] = [keyTag l.rule] from rfl, hh]
    dsimp only
    rw [normLoop_acc d n0 rest [] []
      ([] ++ [(⟨.tupleK [keyTag l.rule], hand, n0⟩ : LRC σ)])]
    simp
  · intro σ d node m s fuel
    cases hm : d.layoutFor (.single m) <;> simp [wk, hm]

/-- Witness: the shortest-match clause applied to a concrete
one-marker batch with the singleton tuple `(Indent,)` registered. -/
theorem layout_combination_behavior_witness :
    c2Dispatcher.layoutFor (.tupleK [keyTag (LayoutKey.single .indent)]) =
        some (cexLayoutH "grp1" "1") ∧
      normLoop c2Dispatcher t0Node
        [⟨.single .indent, cexLayoutH "indent" "i", t0Node⟩] [] [] [] =
        ([⟨.tupleK [.indent], cexLayoutH "grp1" "1", t0Node⟩], []) := by
  refine ⟨rfl, ?_⟩
  rw [layout_combination_behavior.2.1 CexState c2Dispatcher t0Node
    ⟨.single .indent, cexLayoutH "indent" "i", t0Node⟩ [] (cexLayoutH "grp1" "1") rfl]
  rfl

/-- C3 counterexample: in the attribution scenario, the Indent is
queued by the T1 node and the Newline by the T2 node, yet the combined
handler resolving the Newline (`g2`) is invoked with the T1 node —
`process_layouts` attributes every combined chunk to the first node of
the whole batch, not to the node that queued the marker. -/
theorem layout_attribution_counterexample :
    c3QueuedBy = ["T1", "T2"] ∧
      c3Log = [("g1", "T1"), ("g2", "T1")] ∧
      ("T2" : String) ≠ "T1" :=
  ⟨by decide, by decide, by decide⟩

/-- C3 (amended): in the `"var a = 1;"` rendering exactly 3
space-layout invocations occur, with argument tuples
(node, before, after, prev) = (VarStatement, "var", "a", None),
(VarDecl, "a", "=", None), (VarDecl, "=", "1", None), in that order —
markers resolved by their single-marker fallback are handled with the
node that queued them (the leftover stack preserves the queued chunks
unchanged), while a *combined* handler receives the node of the first
marker of the whole batch, which may be a neighboring node. -/
theorem layout_attribution_behavior :
    varA1Layouts =
        [("VarStatement", some "var", some "a", none),
         ("VarDecl", some "a", some "=", none),
         ("VarDecl", some "=", some "1", none)] ∧
      (∀ (σ : Type) (d : Dispatcher σ) (n0 : PyVal) (lrcs : List (LRC σ)) (l : LRC σ),
        l ∈ (normLoop d n0 lrcs [] [] []).2 → l ∈ lrcs) ∧
      (∀ (σ : Type) (d : Dispatcher σ) (n0 : PyVal) (lrcs : List (LRC σ)) (g : LRC σ),
        g ∈ (normLoop d n0 lrcs [] [] []).1 → g.node = n0) := by
  refine ⟨by decide, ?_, ?_⟩
  · intro σ d n0 lrcs l hl
    rcases normLoop_stack_mem d n0 lrcs [] [] [] l hl with hmem | hmem
    · simp at hmem
    · exact hmem
  · intro σ d n0 lrcs g hg
    rcases normLoop_norm_node d n0 lrcs [] [] [] g hg with hmem | hmem
    · simp at hmem
    · exact hmem

/-- Witness: the batch-head attribution clause at the concrete
attribution batch. -/
theorem layout_attribution_behavior_witness :
    (⟨.tupleK [.newline], cexLayoutH "g2" "", t1Node⟩ : LRC CexState) ∈
        (normLoop c3Dispatcher t1Node c3Batch [] [] []).1 ∧
      (⟨.tupleK [.newline], cexLayoutH "g2" "", t1Node⟩ : LRC CexState).node = t1Node := by
  have hmem : (⟨.tupleK [.newline], cexLayoutH "g2" "", t1Node⟩ : LRC CexState) ∈
      (normLoop c3Dispatcher t1Node c3Batch [] [] []).1 := by
    have heval : (normLoop c3Dispatcher t1Node c3Batch [] [] []).1 =
        [⟨.tupleK [.indent], cexLayoutH "g1" "", t1Node⟩,
         ⟨.tupleK [.newline], cexLayoutH "g2" "", t1Node⟩] := rfl
    rw [heval]
    exact List.mem_cons_of_mem _ (List.mem_cons_self _ _)
  exact ⟨hmem, layout_attribution_behavior.2.2 CexState c3Dispatcher t1Node c3Batch _ hmem⟩

/-! ## Claim theorems: deferred and token rules -/

/-- C7: a Resolve deferred call fails with the type error exactly when
the node is not an Identifier; on an Identifier it returns the
registered handler's result, or, with no handler, the node's own
`value` attribute unchanged. -/
theorem resolve_behavior (σ : Type) (d : Dispatcher σ) (node : PyVal) (s : σ) :
    (resolveCall d node s = .error .typeErrorResolve ↔ isIdentifier node = false) ∧
      (∀ hnd, isIdentifier node = true → d.resolve_handler = some hnd →
        resolveCall d node s = .ok (hnd d.cfg node s)) ∧
      (∀ v, isIdentifier node = true → d.resolve_handler = none →
        getattr node "value" = some v → resolveCall d node s = .ok (s, v)) := by
  refine ⟨⟨?_, ?_⟩, ?_, ?_⟩
  · intro herr
    by_contra hid
    have hid2 : isIdentifier node = true := by
      cases hv : isIdentifier node
      · exact absurd hv hid
      · rfl
    unfold resolveCall at herr
    rw [if_pos hid2] at herr
    cases hh : d.resolve_handler with
    | some hnd => rw [hh] at herr; exact Except.noConfusion herr
    | none =>
      rw [hh] at herr
      cases hv : getattr node "value" with
      | some v => rw [hv] at herr; exact Except.noConfusion herr
      | none =>
        rw [hv] at herr
        have := Except.error.inj herr
        exact PyErr.noConfusion this
  · intro hid
    unfold resolveCall
    rw [if_neg (by simp [hid])]
  · intro hnd hid hh
    unfold resolveCall
    rw [if_pos hid, hh]
  · intro v hid hh hv
    unfold resolveCall
    rw [if_pos hid, hh, hv]

/-- Witness for the Resolve clauses at the test dispatcher and the
Identifier node `a`. -/
theorem resolve_behavior_witness :
    isIdentifier idANode = true ∧
      testDispatcher.resolve_handler = some replaceResolver ∧
      resolveCall testDispatcher idANode testState0 = .ok (testState0, .pstr "a") :=
  ⟨rfl, rfl,
    (resolve_behavior TestState testDispatcher idANode testState0).2.1
      replaceResolver rfl rfl⟩

/-- C8 counterexample: an `Attr` rule whose attribute is absent on the
node does not yield nothing — fetching raises the attribute error. -/
theorem attr_absent_counterexample :
    getattr (.pnode "T" [] []) "q" = none ∧
      wk bareDispatcher 2 (.token (.attr (.name "q")) (.pnode "T" [] [])) () =
        .error (.attributeError "q") :=
  ⟨rfl, rfl⟩

/-- C8 (amended): an `Attr` token whose fetched value is empty — where
empty means exactly `None` or an empty sequence value, an *absent*
attribute instead raising an attribute error — yields no chunks;
otherwise it yields the chunks from resolving the value: a recursive
walk under the value's registered definition for a Node value, the
token handler's chunks for any other value. -/
theorem attr_empty_behavior (σ : Type) (fuel : Nat) (d : Dispatcher σ) (node : PyVal)
    (a : String) (s : σ) :
    (∀ w : PyVal, isEmptyVal w = true ↔ (w = .pnone ∨ w = .plist [])) ∧
      (getattr node a = none →
        wk d (fuel + 1) (.token (.attr (.name a)) node) s = .error (.attributeError a)) ∧
      (∀ v, getattr node a = some v → isEmptyVal v = true →
        wk d (fuel + 1) (.token (.attr (.name a)) node) s = .ok (s, [])) ∧
      (∀ v, getattr node a = some v → isEmptyVal v = false →
        wk d (fuel + 1) (.token (.attr (.name a)) node) s =
          wk d fuel (.resolveV (.attr (.name a)) node v) s) ∧
      (∀ r t ats cs defn, d.defFor (.pnode t ats cs) = .ok defn →
        wk d (fuel + 1) (.resolveV r node (.pnode t ats cs)) s =
          wk d fuel (.walkList (.pnode t ats cs) defn) s) ∧
      (∀ r v, (∀ t ats cs, v ≠ .pnode t ats cs) →
        wk d (fuel + 1) (.resolveV r node v) s =
          .ok ((d.token_handler r d.cfg node v s).1,
            ((d.token_handler r d.cfg node v s).2).map .chunk)) := by
  refine ⟨?_, ?_, ?_, ?_, ?_, ?_⟩
  · intro w
    cases w with
    | pnone => simp [isEmptyVal]
    | pstr t => simp [isEmptyVal]
    | pnode t ats cs => simp [isEmptyVal]
    | plist xs => cases xs <;> simp [isEmptyVal]
  · intro hget
    simp [wk, getAttrSpec, hget]
  · intro v hget hemp
    simp [wk, getAttrSpec, hget, hemp]
  · intro v hget hemp
    simp [wk, getAttrSpec, hget, hemp]
  · intro r t ats cs defn hdef
    simp [wk, hdef]
  · intro r v hnv
    cases v with
    | pnode t ats cs => exact absurd rfl (hnv t ats cs)
    | pnone => simp [wk]
    | pstr t => simp [wk]
    | plist xs => simp [wk]

/-- Witness: the empty clause at a node carrying an empty list
attribute. -/
theorem attr_empty_behavior_witness :
    getattr emptyAttrNode "items" = some (.plist []) ∧
      isEmptyVal (.plist []) = true ∧
      wk bareDispatcher 5 (.token (.attr (.name "items")) emptyAttrNode) () = .ok ((), []) :=
  ⟨rfl, rfl,
    (attr_empty_behavior Unit 4 bareDispatcher emptyAttrNode "items" ()).2.2.1
      (.plist []) rfl rfl⟩

theorem declareItems_allId {σ : Type} (cfg : DCfg) (h : DCfg → PyVal → σ → σ)
    (p a : String) :
    ∀ (xs : List PyVal) (i : Nat) (s : σ), (∀ x ∈ xs, isIdentifier x = true) →
      declareItems cfg h p a xs i s = .ok (xs.foldl (fun st x => h cfg x st) s) := by
  intro xs
  induction xs with
  | nil => intro i s _; rfl
  | cons x rest ih =>
    intro i s hall
    have hx : isIdentifier x = true := hall x (List.mem_cons_self _ _)
    simp only [declareItems, hx, if_pos, List.foldl_cons]
    exact ih (i + 1) (h cfg x s) (fun y hy => hall y (List.mem_cons_of_mem _ hy))

theorem declareItems_firstBad {σ : Type} (cfg : DCfg) (h : DCfg → PyVal → σ → σ)
    (p a : String) :
    ∀ (pre : List PyVal) (y : PyVal) (post : List PyVal) (i : Nat) (s : σ),
      (∀ x ∈ pre, isIdentifier x = true) → isIdentifier y = false →
      declareItems cfg h p a (pre ++ y :: post) i s =
        .error (.typeErrorDeclare p a (some (i + pre.length))) := by
  intro pre
  induction pre with
  | nil =>
    intro y post i s _ hy
    simp only [List.nil_append, declareItems, hy]
    rfl
  | cons x rest ih =>
    intro y post i s hall hy
    have hx : isIdentifier x = true := hall x (List.mem_cons_self _ _)
    simp only [List.cons_append, declareItems, hx, if_pos, List.append_eq]
    rw [ih y post (i + 1) (h cfg x s) (fun z hz => hall z (List.mem_cons_of_mem _ hz)) hy]
    congr 2
    simp
    omega

/-- C6 counterexample: with no Declare handler registered, a Declare
rule whose fetched attribute holds a non-Identifier node does *not*
fail — the value is returned unchecked (the type check lives inside the
handler-invocation branch). -/
theorem declare_unchecked_counterexample :
    bareDispatcher.declare_handler = none ∧
      getattr declParentCex "identifier" = some numNodeCex ∧
      isIdentifier numNodeCex = false ∧
      declareCall bareDispatcher "identifier" declParentCex () = .ok ((), numNodeCex) :=
  ⟨rfl, rfl, rfl, rfl⟩

/-- C6 (amended): a Declare('attr') evaluation fetches `node.attr`
(attribute error when absent) and returns it unchanged when empty or
when no Declare handler is registered — the Identifier type check only
runs when a handler is registered.  With a handler: a non-list value is
checked and the handler invoked once on it (type error naming the
attribute path when it is not an Identifier); a list value is checked
item by item in order, the handler invoked once per item, the first
non-Identifier item failing with the type error naming the attribute
path and that item's index; in every non-error case the original
fetched value is returned. -/
theorem declare_behavior (σ : Type) (d : Dispatcher σ) (attr : String) (node : PyVal) (s : σ) :
    (getattr node attr = none →
        declareCall d attr node s = .error (.attributeError attr)) ∧
      (∀ v, getattr node attr = some v → isEmptyVal v = true →
        declareCall d attr node s = .ok (s, v)) ∧
      (∀ v, getattr node attr = some v → d.declare_handler = none →
        declareCall d attr node s = .ok (s, v)) ∧
      (∀ hnd v, d.declare_handler = some hnd → getattr node attr = some v →
        isEmptyVal v = false →
        ((∀ xs, v ≠ .plist xs) →
          (isIdentifier v = true →
            declareCall d attr node s = .ok (hnd d.cfg v s, v)) ∧
          (isIdentifier v = false →
            declareCall d attr node s =
              .error (.typeErrorDeclare (typenameOf node) attr none))) ∧
        (∀ xs, v = .plist xs →
          ((∀ x ∈ xs, isIdentifier x = true) →
            declareCall d attr node s =
              .ok (xs.foldl (fun st x => hnd d.cfg x st) s, v)) ∧
          (∀ pre y post, xs = pre ++ y :: post →
            (∀ x ∈ pre, isIdentifier x = true) → isIdentifier y = false →
            declareCall d attr node s =
              .error (.typeErrorDeclare (typenameOf node) attr (some pre.length))))) := by
  refine ⟨?_, ?_, ?_, ?_⟩
  · intro hget
    simp [declareCall, hget]
  · intro v hget hemp
    simp [declareCall, hget, hemp]
  · intro v hget hh
    simp [declareCall, hget, hh]
  · intro hnd v hh hget hemp
    constructor
    · intro hnl
      constructor
      · intro hid
        cases v with
        | pnone => simp [isEmptyVal] at hemp
        | pstr t => simp [isIdentifier] at hid
        | plist xs => exact absurd rfl (hnl xs)
        | pnode t ats cs =>
          simp [declareCall, hget, hemp, hh, hid]
      · intro hid
        cases v with
        | pnone => simp [isEmptyVal] at hemp
        | pstr t => simp [declareCall, hget, hemp, hh, hid]
        | plist xs => exact absurd rfl (hnl xs)
        | pnode t ats cs => simp [declareCall, hget, hemp, hh, hid]
    · intro xs hxs
      subst hxs
      constructor
      · intro hall
        simp [declareCall, hget, hemp, hh,
          declareItems_allId d.cfg hnd (typenameOf node) attr xs 0 s hall]
      · intro pre y post hsplit hall hy
        subst hsplit
        simp [declareCall, hget, hemp, hh,
          declareItems_firstBad d.cfg hnd (typenameOf node) attr pre y post 0 s hall hy]

/-- Witness: the single-item clause at the test dispatcher: the Declare
handler is invoked once on the Identifier `a` and the original node is
returned. -/
theorem declare_behavior_witness :
    testDispatcher.declare_handler = some declareRecorder ∧
      getattr varDeclA "identifier" = some idANode ∧
      isEmptyVal idANode = false ∧
      isIdentifier idANode = true ∧
      declareCall testDispatcher "identifier" varDeclA testState0 =
        .ok (⟨[], [], ["a"], []⟩, idANode) :=
  ⟨rfl, rfl, rfl, rfl,
    (((declare_behavior TestState testDispatcher "identifier" varDeclA testState0).2.2.2
      declareRecorder idANode rfl rfl rfl).1
      (fun xs hcontra => by
        rw [show idANode = PyVal.pnode "Identifier" [("value", PyVal.pstr "a")] [] from rfl]
          at hcontra
        exact PyVal.noConfusion hcontra)).1 rfl⟩

/-! ## Claim theorems: dispatcher construction and the mangler -/

/-- C9: `Dispatcher.__init__` copies the caller's definition,
layout-handler and deferred-handler mappings into freshly allocated
private tables, so overwriting any of the caller's original dict
objects after construction leaves every lookup result equal to the
construction-time contents; the indent and newline strings are exposed
as the values passed to the constructor (getter-only properties). -/
theorem dispatcher_ctor_frame (κ β : Type) [inst : DecidableEq κ] (st : Store (Dict κ β))
    (defsSrc layoutSrc deferredSrc : Nat) (ind nl : String)
    (hdefs : defsSrc < st.next) (hlay : layoutSrc < st.next) (hdef : deferredSrc < st.next)
    (r : Nat) (dv : Dict κ β) (hr : r = defsSrc ∨ r = layoutSrc ∨ r = deferredSrc) (k : κ) :
    dispGetItem (((dispNew st defsSrc layoutSrc deferredSrc ind nl).2).write r dv)
        (dispNew st defsSrc layoutSrc deferredSrc ind nl).1 k =
      alookup k (st.mem defsSrc) ∧
    dispCallLayout (((dispNew st defsSrc layoutSrc deferredSrc ind nl).2).write r dv)
        (dispNew st defsSrc layoutSrc deferredSrc ind nl).1 k =
      alookup k (st.mem layoutSrc) ∧
    dispCallDeferred (((dispNew st defsSrc layoutSrc deferredSrc ind nl).2).write r dv)
        (dispNew st defsSrc layoutSrc deferredSrc ind nl).1 k =
      alookup k (st.mem deferredSrc) ∧
    (dispNew st defsSrc layoutSrc deferredSrc ind nl).1.indentS = ind ∧
    (dispNew st defsSrc layoutSrc deferredSrc ind nl).1.newlineS = nl := by
  have hrlt : r < st.next := by rcases hr with h | h | h <;> omega
  refine ⟨?_, ?_, ?_, rfl, rfl⟩
  · simp only [dispNew, Store.alloc, Store.write, dispGetItem, dictUpdated]
    rw [if_neg (by omega), if_true, if_neg (by omega), if_neg (by omega)]
  · simp only [dispNew, Store.alloc, Store.write, dispCallLayout, dictUpdated]
    rw [if_neg (by omega), if_neg (by omega), if_neg (by omega), if_true]
  · simp only [dispNew, Store.alloc, Store.write, dispCallDeferred, dictUpdated]
    rw [if_neg (by omega), if_neg (by omega), if_true, if_neg (by omega)]

/-- Witness: a three-object store; overwriting the caller's definitions
dict after construction leaves every dispatcher lookup unchanged. -/
theorem dispatcher_ctor_frame_witness :
    (0 < 3 ∧ 1 < 3 ∧ 2 < 3) ∧
      dispGetItem (((dispNew (⟨3, fun _ => ([] : Dict Nat Nat)⟩) 0 1 2 "  " "n").2).write 0
          [(7, 7)]) (dispNew (⟨3, fun _ => ([] : Dict Nat Nat)⟩) 0 1 2 "  " "n").1 7 =
        alookup 7 (([] : Dict Nat Nat)) :=
  ⟨⟨by omega, by omega, by omega⟩,
    (dispatcher_ctor_frame Nat Nat ⟨3, fun _ => []⟩ 0 1 2 "  " "n"
      (by decide) (by decide) (by decide) 0 [(7, 7)] (Or.inl rfl) 7).1⟩

/-- C10: constructing a Shortener with `use_global_scope=True` always
fails with the attribute error for the nonexistent list method `push`
before any scope is pushed, while the default construction succeeds
with an empty scope mapping and an empty stack. -/
theorem shortener_global_scope :
    shortenerNew true = .error (.attributeError "push") ∧
      shortenerNew false = .ok ⟨[], []⟩ :=
  ⟨rfl, rfl⟩

end CalmjsParse
